import Mathlib

/-!
Verification development for the `shoper` shell-operator library
(`src/shoper/shelloperator.py`).

The Python class `ShellOperator` is embedded shallowly:

* The filesystem is a finite association list `FS` of `(path, isDir)`
  entries; `pathExists` mirrors `Path.exists()` and `isDir` mirrors
  `Path.is_dir()`.
* `removeOnePath` mirrors one iteration of
  `ShellOperator._remove_files_or_dirs`: `shutil.rmtree` on a directory
  (the directory entry and everything under it disappears), `Path.unlink`
  on an existing file, and a silent no-op otherwise.
* Shell commands are opaque: a synchronous execution oracle
  `exec : String → FS → Except SpawnErr (Int × FS)` gives each command a
  return code and a filesystem effect, or raises.  `SpawnErr` separates
  `subprocessError` (Python `subprocess.SubprocessError`, the only class
  caught by the `except` clause in `run`) from `osError` (any other
  exception a spawn can raise, e.g. `OSError`), because `run`
  distinguishes them.
* Raised Python exceptions become an `Except RunError` result.
* The mutable `self.__open_proc_list` becomes the `openProcList` field of
  `RunnerState`, threaded explicitly through `run` and `wait`.
-/

namespace ShellOperator

/-- A filesystem: a finite list of `(path, isDir)` entries. -/
abbrev FS := List (String × Bool)

/-- Embedding of `pathlib.Path.exists()` over the shallow filesystem. -/
def pathExists (fs : FS) (p : String) : Bool :=
  fs.any (fun e => e.1 == p)

/-- Embedding of `pathlib.Path.is_dir()` over the shallow filesystem. -/
def isDir (fs : FS) (p : String) : Bool :=
  fs.any (fun e => e.1 == p && e.2)

/-- Relation `underDir p q`: `q` lies strictly below the directory `p`
(its name extends `p ++ "/"`), i.e. `shutil.rmtree p` would remove `q`. -/
def underDir (p q : String) : Bool :=
  String.isPrefixOf (p ++ "/") q

/-- One loop iteration of `ShellOperator._remove_files_or_dirs`
(`shelloperator.py:106-112`): `if p.is_dir(): shutil.rmtree(p)` —
the directory and its contents go — `elif p.exists(): p.unlink()`,
and non-existent paths are silently skipped. -/
def removeOnePath (fs : FS) (p : String) : FS :=
  if isDir fs p then
    fs.filter (fun e => !(e.1 == p || underDir p e.1))
  else if pathExists fs p then
    fs.filter (fun e => !(e.1 == p))
  else
    fs

/-- Embedding of `ShellOperator._remove_files_or_dirs`
(`shelloperator.py:87-112`): the loop `for p in self._args2pathlist(paths)`
applying `removeOnePath` in order. -/
def remove_files_or_dirs (fs : FS) (paths : List String) : FS :=
  paths.foldl removeOnePath fs

lemma pathExists_iff {fs : FS} {p : String} :
    pathExists fs p = true ↔ ∃ b, (p, b) ∈ fs := by
  unfold pathExists
  rw [List.any_eq_true]
  constructor
  · rintro ⟨⟨q, b⟩, hmem, hq⟩
    simp only [beq_iff_eq] at hq
    exact ⟨b, by simpa [hq] using hmem⟩
  · rintro ⟨b, hmem⟩
    exact ⟨(p, b), hmem, by simp⟩

lemma isDir_pathExists {fs : FS} {p : String} (h : isDir fs p = true) :
    pathExists fs p = true := by
  unfold isDir at h
  rw [List.any_eq_true] at h
  rcases h with ⟨⟨q, b⟩, hmem, hq⟩
  simp only [Bool.and_eq_true, beq_iff_eq] at hq
  exact pathExists_iff.mpr ⟨b, by simpa [hq.1] using hmem⟩

/-- Removing a path only ever deletes entries: existence after removal
implies existence before. -/
lemma pathExists_removeOnePath_mono {fs : FS} {p q : String}
    (h : pathExists (removeOnePath fs p) q = true) :
    pathExists fs q = true := by
  unfold removeOnePath at h
  split at h
  · rcases pathExists_iff.mp h with ⟨b, hmem⟩
    exact pathExists_iff.mpr ⟨b, (List.mem_filter.mp hmem).1⟩
  · split at h
    · rcases pathExists_iff.mp h with ⟨b, hmem⟩
      exact pathExists_iff.mpr ⟨b, (List.mem_filter.mp hmem).1⟩
    · exact h

/-- Removing a non-existent path is a silent no-op. -/
lemma removeOnePath_of_not_exists {fs : FS} {p : String}
    (h : pathExists fs p = false) : removeOnePath fs p = fs := by
  unfold removeOnePath
  have hd : isDir fs p = false := by
    cases hid : isDir fs p
    · rfl
    · exact absurd (isDir_pathExists hid) (by simp [h])
  simp [hd, h]

/-- After removing `p`, the path `p` no longer exists. -/
lemma pathExists_removeOnePath_self {fs : FS} {p : String} :
    pathExists (removeOnePath fs p) p = false := by
  unfold removeOnePath
  split
  · rw [Bool.eq_false_iff]
    intro hc
    rcases pathExists_iff.mp hc with ⟨b, hmem⟩
    have := (List.mem_filter.mp hmem).2
    simp at this
  · split
    · rw [Bool.eq_false_iff]
      intro hc
      rcases pathExists_iff.mp hc with ⟨b, hmem⟩
      have := (List.mem_filter.mp hmem).2
      simp at this
    · rename_i h1 h2
      simpa using h2

/-- Removal of `p` cannot delete a path `q` other than `p` itself or a
path lying under the directory `p`. -/
lemma removeOnePath_frame {fs : FS} {p q : String}
    (hq : pathExists fs q = true)
    (hq' : pathExists (removeOnePath fs p) q = false) :
    q = p ∨ underDir p q = true := by
  by_contra hcon
  push_neg at hcon
  rcases pathExists_iff.mp hq with ⟨b, hmem⟩
  have : pathExists (removeOnePath fs p) q = true := by
    unfold removeOnePath
    split
    · refine pathExists_iff.mpr ⟨b, List.mem_filter.mpr ⟨hmem, ?_⟩⟩
      simp [hcon.1, hcon.2]
    · split
      · refine pathExists_iff.mpr ⟨b, List.mem_filter.mpr ⟨hmem, ?_⟩⟩
        simp [hcon.1]
      · exact pathExists_iff.mpr ⟨b, hmem⟩
  simp [this] at hq'

lemma pathExists_remove_mono {fs : FS} {ps : List String} {q : String}
    (h : pathExists (remove_files_or_dirs fs ps) q = true) :
    pathExists fs q = true := by
  induction ps generalizing fs with
  | nil => exact h
  | cons p rest ih =>
    exact pathExists_removeOnePath_mono (ih h)

lemma pathExists_remove_of_not_exists {fs : FS} {ps : List String} {q : String}
    (h : pathExists fs q = false) :
    pathExists (remove_files_or_dirs fs ps) q = false := by
  cases hc : pathExists (remove_files_or_dirs fs ps) q
  · rfl
  · exact absurd (pathExists_remove_mono hc) (by simp [h])

/-- Every path in the removed list is gone afterwards. -/
lemma pathExists_remove_mem {fs : FS} {ps : List String} {p : String}
    (h : p ∈ ps) :
    pathExists (remove_files_or_dirs fs ps) p = false := by
  induction ps generalizing fs with
  | nil => cases h
  | cons q rest ih =>
    show pathExists (remove_files_or_dirs (removeOnePath fs q) rest) p = false
    rcases List.mem_cons.mp h with heq | hmem
    · subst heq
      exact pathExists_remove_of_not_exists pathExists_removeOnePath_self
    · exact ih hmem

/-- Removing a list of wholly non-existent paths changes nothing. -/
lemma remove_of_all_not_exists {fs : FS} {ps : List String}
    (h : ∀ p ∈ ps, pathExists fs p = false) :
    remove_files_or_dirs fs ps = fs := by
  induction ps generalizing fs with
  | nil => rfl
  | cons q rest ih =>
    have hq : removeOnePath fs q = fs :=
      removeOnePath_of_not_exists (h q (List.mem_cons_self q rest))
    show remove_files_or_dirs (removeOnePath fs q) rest = fs
    rw [hq]
    exact ih (fun p hp => h p (List.mem_cons_of_mem q hp))

/-- A deletion performed by `remove_files_or_dirs` hits only listed paths
or paths under a listed directory. -/
lemma remove_frame {fs : FS} {ps : List String} {q : String}
    (hq : pathExists fs q = true)
    (hq' : pathExists (remove_files_or_dirs fs ps) q = false) :
    ∃ p ∈ ps, q = p ∨ underDir p q = true := by
  induction ps generalizing fs with
  | nil => simp [remove_files_or_dirs] at hq'; simp [hq'] at hq
  | cons p rest ih =>
    cases hstep : pathExists (removeOnePath fs p) q
    · exact ⟨p, List.mem_cons_self p rest, removeOnePath_frame hq hstep⟩
    · have hq'' : pathExists (remove_files_or_dirs (removeOnePath fs p) rest) q = false := hq'
      rcases ih hstep hq'' with ⟨r, hr, hrq⟩
      exact ⟨r, List.mem_cons_of_mem p hr, hrq⟩

/-- A finished process handle: the command line it ran and its exit
status (`subprocess.Popen.returncode`). -/
structure Proc where
  cmd : String
  returncode : Int
deriving DecidableEq, Repr

/-- Exceptions a spawn/execution can raise inside the synchronous loop of
`run`.  `subprocessError` stands for `subprocess.SubprocessError` — the
only class the `except` clause at `shelloperator.py:220` catches — and
`osError` for every other exception (e.g. `OSError` from
`subprocess.Popen`), which propagates uncaught. -/
inductive SpawnErr where
  | subprocessError (msg : String)
  | osError (msg : String)
deriving DecidableEq, Repr

/-- The exceptions `run` / `wait` can raise, with the data their messages
carry. -/
inductive RunError where
  | inputNotFound (missing : List String)
  | spawnRaised (e : SpawnErr)
  | subprocessFailed (failed : List Proc)
  | outputNotFound (missing : List String)
  | outputNotValidated (rejected : List String)
deriving DecidableEq, Repr

/-- One entry of `self.__open_proc_list`, appended by an asynchronous
`run` (`shelloperator.py:205-213`). -/
structure Batch where
  procs : List Proc
  output_files_or_dirs : List String
  output_validator : Option (String → Bool)
  remove_if_failed : Bool

/-- The mutable state of a `ShellOperator` instance together with the
filesystem it acts on. -/
structure RunnerState where
  fs : FS
  openProcList : List Batch

/-- Embedding of `ShellOperator._validate_outputs`
(`shelloperator.py:570-632`).  Returns the raised exception (if any) and
the filesystem after the cleanup the method performs.  `f_all` is a set
in Python; insertion-ordered deduplication (`List.dedup` keeps the first
occurrence) models it, with theorems stated via membership only. -/
def validate_outputs (fs : FS) (files_or_dirs : List String)
    (func : Option (String → Bool)) (remove_if_failed : Bool) :
    Except RunError Unit × FS :=
  let fAll := files_or_dirs.dedup
  let fFound := fAll.filter (fun p => pathExists fs p)
  let fNotFound := fAll.filter (fun p => !(pathExists fs p))
  if fNotFound ≠ [] then
    let fs1 := if remove_if_failed ∧ fFound ≠ [] then
        remove_files_or_dirs fs fFound
      else fs
    (Except.error (RunError.outputNotFound fNotFound), fs1)
  else
    match func with
    | some f =>
      let fNotValidated := fFound.filter (fun p => !(f p))
      if fNotValidated ≠ [] then
        let fs1 := if remove_if_failed then remove_files_or_dirs fs fFound else fs
        (Except.error (RunError.outputNotValidated fNotValidated), fs1)
      else
        (Except.ok (), fs)
    | none => (Except.ok (), fs)

/-- Embedding of `ShellOperator._validate_results`
(`shelloperator.py:511-568`): partition the handles by exit status, raise
the aggregate `SubprocessError` listing every failed handle (after the
optional cleanup), otherwise validate declared outputs. -/
def validate_results (fs : FS) (procs : List Proc)
    (output_files_or_dirs : List String)
    (output_validator : Option (String → Bool)) (remove_if_failed : Bool) :
    Except RunError Unit × FS :=
  let pFailed := procs.filter (fun p => p.returncode != 0)
  if pFailed ≠ [] then
    let fs1 := if output_files_or_dirs ≠ [] ∧ remove_if_failed then
        remove_files_or_dirs fs output_files_or_dirs
      else fs
    (Except.error (RunError.subprocessFailed pFailed), fs1)
  else if output_files_or_dirs ≠ [] then
    validate_outputs fs output_files_or_dirs output_validator remove_if_failed
  else
    (Except.ok (), fs)

/-- Synchronous execution loop of `run` (`shelloperator.py:216-219`):
`procs = [self._shell_c(arg=a, ...) for a in self._args2list(args)]`.
The oracle `ex` gives each command its exit status and filesystem effect,
or the exception `_shell_c` raises.  Commands run strictly in order; a
non-zero exit does not stop the loop (only validation later looks at
exit statuses).  On an exception the result carries the filesystem at
that point and the command lines handed to a spawn so far (the failing
one included). -/
def runCmds (ex : String → FS → Except SpawnErr (Int × FS)) :
    FS → List String → Except (SpawnErr × FS × List String) (List Proc × FS)
  | fs, [] => Except.ok ([], fs)
  | fs, a :: rest =>
    match ex a fs with
    | Except.error e => Except.error (e, fs, [a])
    | Except.ok (rc, fs1) =>
      match runCmds ex fs1 rest with
      | Except.error (e, fsE, sp) => Except.error (e, fsE, a :: sp)
      | Except.ok (ps, fs2) => Except.ok (⟨a, rc⟩ :: ps, fs2)

/-- What one `run` call produced: the raised exception (if any), the
runner/filesystem state afterwards, and the command lines that reached a
spawn call (`_popen` or `_shell_c`'s `subprocess.Popen`). -/
structure RunOutcome where
  result : Except RunError Unit
  state : RunnerState
  spawned : List String

/-- Whether the `except subprocess.SubprocessError` clause at
`shelloperator.py:220` catches the exception `e`. -/
def catchesSubprocessError (e : SpawnErr) : Bool :=
  match e with
  | SpawnErr.subprocessError _ => true
  | SpawnErr.osError _ => false

/-- Embedding of `ShellOperator.run` (`shelloperator.py:114-229`).

`ex` is the synchronous execution oracle (`_shell_c`); `popen` gives the
eventual exit status of an asynchronously spawned command (`_popen`),
whose handle is recorded in the appended batch.  The order of steps
mirrors the source: input-existence check and `FileNotFoundError`
(lines 189-193), skip-if-exist branch (194-195), `remove_previous`
cleanup (197-198), the asynchronous append (204-213), and the
synchronous loop with its `except` cleanup/re-raise (214-223) followed
by `_validate_results` (224-229). -/
def run (ex : String → FS → Except SpawnErr (Int × FS))
    (popen : String → Int) (st : RunnerState) (args : List String)
    (input_files_or_dirs output_files_or_dirs : List String)
    (output_validator : Option (String → Bool))
    (asynchronous remove_if_failed remove_previous skip_if_exist : Bool) :
    RunOutcome :=
  let inputMissing := input_files_or_dirs.dedup.filter
    (fun p => !(pathExists st.fs p))
  if input_files_or_dirs ≠ [] ∧ inputMissing ≠ [] then
    { result := Except.error (RunError.inputNotFound inputMissing),
      state := st, spawned := [] }
  else if output_files_or_dirs ≠ [] ∧
      output_files_or_dirs.all (fun p => pathExists st.fs p) ∧
      skip_if_exist then
    { result := Except.ok (), state := st, spawned := [] }
  else
    let fs0 := if remove_previous then
        remove_files_or_dirs st.fs output_files_or_dirs
      else st.fs
    if asynchronous then
      { result := Except.ok (),
        state :=
          { fs := fs0,
            openProcList := st.openProcList ++
              [{ procs := args.map (fun a => ⟨a, popen a⟩),
                 output_files_or_dirs := output_files_or_dirs,
                 output_validator := output_validator,
                 remove_if_failed := remove_if_failed }] },
        spawned := args }
    else
      match runCmds ex fs0 args with
      | Except.error (e, fsE, sp) =>
        let fs1 := if catchesSubprocessError e ∧ output_files_or_dirs ≠ [] ∧
            remove_if_failed then
            remove_files_or_dirs fsE output_files_or_dirs
          else fsE
        { result := Except.error (RunError.spawnRaised e),
          state := { fs := fs1, openProcList := st.openProcList },
          spawned := sp }
      | Except.ok (procs, fs1) =>
        let vr := validate_results fs1 procs output_files_or_dirs
          output_validator remove_if_failed
        { result := vr.1,
          state := { fs := vr.2, openProcList := st.openProcList },
          spawned := args }

/-- The loop body of `wait` (`shelloperator.py:257-266`): validate each
pending batch in queue order; an exception aborts the loop at once. -/
def waitBatches (fs : FS) : List Batch → Except RunError Unit × FS
  | [] => (Except.ok (), fs)
  | b :: rest =>
    match validate_results fs b.procs b.output_files_or_dirs
      b.output_validator b.remove_if_failed with
    | (Except.error e, fs1) => (Except.error e, fs1)
    | (Except.ok _, fs1) => waitBatches fs1 rest

/-- Embedding of `ShellOperator.wait` (`shelloperator.py:231-269`): drain
the pending list in order, validating each batch; the clearing
`self.__open_proc_list = []` at line 267 runs only when no validation
raised, so on an exception the list is left untouched. -/
def wait (st : RunnerState) : Except RunError Unit × RunnerState :=
  match waitBatches st.fs st.openProcList with
  | (Except.error e, fs1) =>
    (Except.error e, { fs := fs1, openProcList := st.openProcList })
  | (Except.ok _, fs1) =>
    (Except.ok (), { fs := fs1, openProcList := [] })

lemma inputMissing_ne_nil {fs : FS} {inputs : List String}
    (h : ∃ p ∈ inputs, pathExists fs p = false) :
    inputs.dedup.filter (fun p => !(pathExists fs p)) ≠ [] := by
  obtain ⟨p, hp, hpe⟩ := h
  exact List.ne_nil_of_mem
    (List.mem_filter.mpr ⟨List.mem_dedup.mpr hp, by simp [hpe]⟩)

lemma inputMissing_eq_nil {fs : FS} {inputs : List String}
    (h : ∀ p ∈ inputs, pathExists fs p = true) :
    inputs.dedup.filter (fun p => !(pathExists fs p)) = [] := by
  rw [List.filter_eq_nil_iff]
  intro p hp
  simp [h p (List.mem_dedup.mp hp)]

/-- C8: `remove-paths` is total and idempotent: a directory is removed
recursively, an existing file is deleted, a non-existent path is
silently skipped, every listed path is gone afterwards, and a second
call on the same (now-deleted) path list changes nothing. -/
theorem remove_files_or_dirs_total_idempotent (fs : FS) (p : String)
    (ps : List String) :
    (pathExists fs p = false → removeOnePath fs p = fs) ∧
    (isDir fs p = true → ∀ q, (q = p ∨ underDir p q = true) →
      pathExists (removeOnePath fs p) q = false) ∧
    (isDir fs p = false → pathExists fs p = true →
      pathExists (removeOnePath fs p) p = false) ∧
    (∀ x ∈ ps, pathExists (remove_files_or_dirs fs ps) x = false) ∧
    remove_files_or_dirs (remove_files_or_dirs fs ps) ps
      = remove_files_or_dirs fs ps := by
  refine ⟨removeOnePath_of_not_exists, ?_, ?_,
    fun x hx => pathExists_remove_mem hx, ?_⟩
  · intro hdir q hq
    unfold removeOnePath
    rw [if_pos hdir]
    rw [Bool.eq_false_iff]
    intro hc
    rcases pathExists_iff.mp hc with ⟨b, hmem⟩
    have hpred := (List.mem_filter.mp hmem).2
    rcases hq with hq | hq <;> simp [hq] at hpred
  · intro _ _
    exact pathExists_removeOnePath_self
  · exact remove_of_all_not_exists (fun x hx => pathExists_remove_mem hx)

/-- Closed instance of C8 at a concrete filesystem holding a directory
with a child, two files, and a missing path. -/
theorem remove_files_or_dirs_total_idempotent_witness :
    (pathExists [("d", true), ("d/x", false), ("f", false)] "g" = false →
      removeOnePath [("d", true), ("d/x", false), ("f", false)] "g"
        = [("d", true), ("d/x", false), ("f", false)]) ∧
    (isDir [("d", true), ("d/x", false), ("f", false)] "g" = true →
      ∀ q, (q = "g" ∨ underDir "g" q = true) →
      pathExists (removeOnePath [("d", true), ("d/x", false), ("f", false)] "g")
        q = false) ∧
    (isDir [("d", true), ("d/x", false), ("f", false)] "g" = false →
      pathExists [("d", true), ("d/x", false), ("f", false)] "g" = true →
      pathExists (removeOnePath [("d", true), ("d/x", false), ("f", false)] "g")
        "g" = false) ∧
    (∀ x ∈ ["d", "f", "g"],
      pathExists (remove_files_or_dirs [("d", true), ("d/x", false), ("f", false)]
        ["d", "f", "g"]) x = false) ∧
    remove_files_or_dirs
      (remove_files_or_dirs [("d", true), ("d/x", false), ("f", false)]
        ["d", "f", "g"]) ["d", "f", "g"]
      = remove_files_or_dirs [("d", true), ("d/x", false), ("f", false)]
        ["d", "f", "g"] :=
  remove_files_or_dirs_total_idempotent
    [("d", true), ("d/x", false), ("f", false)] "g" ["d", "f", "g"]

/-- C1: with a non-empty declared input list of which at least one path
is missing, `run` raises an input-not-found error naming exactly the
missing paths, spawns nothing, deletes nothing and appends no batch (the
whole runner/filesystem state is untouched). -/
theorem run_missing_input (ex : String → FS → Except SpawnErr (Int × FS))
    (popen : String → Int) (st : RunnerState)
    (args inputs outputs : List String) (v : Option (String → Bool))
    (asy rif rp sie : Bool)
    (h1 : inputs ≠ [])
    (h2 : ∃ p ∈ inputs, pathExists st.fs p = false) :
    (run ex popen st args inputs outputs v asy rif rp sie).result
      = Except.error (RunError.inputNotFound
          (inputs.dedup.filter (fun p => !(pathExists st.fs p)))) ∧
    (∀ q, q ∈ inputs.dedup.filter (fun p => !(pathExists st.fs p)) ↔
      (q ∈ inputs ∧ pathExists st.fs q = false)) ∧
    (run ex popen st args inputs outputs v asy rif rp sie).spawned = [] ∧
    (run ex popen st args inputs outputs v asy rif rp sie).state = st := by
  have hm := inputMissing_ne_nil h2
  refine ⟨?_, ?_, ?_, ?_⟩
  · unfold run
    rw [if_pos ⟨h1, hm⟩]
  · intro q
    constructor
    · intro hq
      have h := List.mem_filter.mp hq
      exact ⟨List.mem_dedup.mp h.1, by simpa using h.2⟩
    · intro ⟨hq, hqe⟩
      exact List.mem_filter.mpr ⟨List.mem_dedup.mpr hq, by simp [hqe]⟩
  · unfold run
    rw [if_pos ⟨h1, hm⟩]
  · unfold run
    rw [if_pos ⟨h1, hm⟩]

/-- Closed instance of C1: an asynchronous-flagged call with input
`"in"` absent from an empty filesystem. -/
theorem run_missing_input_witness :
    (["in"] : List String) ≠ [] ∧
    (∃ p ∈ ["in"], pathExists (⟨[], []⟩ : RunnerState).fs p = false) ∧
    ((run (fun _ fs => Except.ok (0, fs)) (fun _ => 0) ⟨[], []⟩ ["echo"]
        ["in"] ["o"] none true true false true).result
      = Except.error (RunError.inputNotFound
          (["in"].dedup.filter
            (fun p => !(pathExists (⟨[], []⟩ : RunnerState).fs p)))) ∧
    (∀ q, q ∈ ["in"].dedup.filter
        (fun p => !(pathExists (⟨[], []⟩ : RunnerState).fs p)) ↔
      (q ∈ ["in"] ∧ pathExists (⟨[], []⟩ : RunnerState).fs q = false)) ∧
    (run (fun _ fs => Except.ok (0, fs)) (fun _ => 0) ⟨[], []⟩ ["echo"]
        ["in"] ["o"] none true true false true).spawned = [] ∧
    (run (fun _ fs => Except.ok (0, fs)) (fun _ => 0) ⟨[], []⟩ ["echo"]
        ["in"] ["o"] none true true false true).state
      = (⟨[], []⟩ : RunnerState)) :=
  ⟨by simp, ⟨"in", by simp, rfl⟩,
    run_missing_input (fun _ fs => Except.ok (0, fs)) (fun _ => 0)
      ⟨[], []⟩ ["echo"] ["in"] ["o"] none true true false true
      (by simp) ⟨"in", by simp, rfl⟩⟩

/-- C3: with declared outputs all present, `skip_if_exist` set and every
declared input present, `run` spawns nothing and returns successfully,
leaving the state untouched. -/
theorem run_skip_if_exist (ex : String → FS → Except SpawnErr (Int × FS))
    (popen : String → Int) (st : RunnerState)
    (args inputs outputs : List String) (v : Option (String → Bool))
    (asy rif rp : Bool)
    (h1 : outputs ≠ [])
    (h2 : outputs.all (fun p => pathExists st.fs p) = true)
    (h3 : ∀ p ∈ inputs, pathExists st.fs p = true) :
    (run ex popen st args inputs outputs v asy rif rp true).result
      = Except.ok () ∧
    (run ex popen st args inputs outputs v asy rif rp true).spawned = [] ∧
    (run ex popen st args inputs outputs v asy rif rp true).state = st := by
  have hmiss := inputMissing_eq_nil h3
  have hneg : ¬(inputs ≠ [] ∧
      inputs.dedup.filter (fun p => !(pathExists st.fs p)) ≠ []) := by
    intro hc
    exact hc.2 hmiss
  refine ⟨?_, ?_, ?_⟩ <;>
  · unfold run
    rw [if_neg hneg, if_pos ⟨h1, h2, rfl⟩]

/-- Closed instance of C3: one declared output already on disk. -/
theorem run_skip_if_exist_witness :
    (["out"] : List String) ≠ [] ∧
    (["out"].all (fun p =>
      pathExists (⟨[("out", false)], []⟩ : RunnerState).fs p) = true) ∧
    (∀ p ∈ ([] : List String),
      pathExists (⟨[("out", false)], []⟩ : RunnerState).fs p = true) ∧
    ((run (fun _ fs => Except.ok (0, fs)) (fun _ => 0) ⟨[("out", false)], []⟩
        ["touch out"] [] ["out"] none false true false true).result
      = Except.ok () ∧
    (run (fun _ fs => Except.ok (0, fs)) (fun _ => 0) ⟨[("out", false)], []⟩
        ["touch out"] [] ["out"] none false true false true).spawned = [] ∧
    (run (fun _ fs => Except.ok (0, fs)) (fun _ => 0) ⟨[("out", false)], []⟩
        ["touch out"] [] ["out"] none false true false true).state
      = (⟨[("out", false)], []⟩ : RunnerState)) :=
  ⟨by simp, by simp [pathExists], by simp,
    run_skip_if_exist (fun _ fs => Except.ok (0, fs)) (fun _ => 0)
      ⟨[("out", false)], []⟩ ["touch out"] [] ["out"] none false true false
      (by simp) (by simp [pathExists]) (by simp)⟩

/-- C9: the skip-if-exist branch takes precedence over
`remove_previous`: when outputs are declared and all present,
`skip_if_exist` is set and inputs are present, nothing is deleted even
with `remove_previous = true` — the state is unchanged. -/
theorem run_skip_beats_remove_previous
    (ex : String → FS → Except SpawnErr (Int × FS)) (popen : String → Int)
    (st : RunnerState) (args inputs outputs : List String)
    (v : Option (String → Bool)) (asy rif : Bool)
    (h1 : outputs ≠ [])
    (h2 : outputs.all (fun p => pathExists st.fs p) = true)
    (h3 : ∀ p ∈ inputs, pathExists st.fs p = true) :
    (run ex popen st args inputs outputs v asy rif true true).state.fs
      = st.fs ∧
    (run ex popen st args inputs outputs v asy rif true true).result
      = Except.ok () ∧
    (run ex popen st args inputs outputs v asy rif true true).spawned
      = [] := by
  have hmiss := inputMissing_eq_nil h3
  have hneg : ¬(inputs ≠ [] ∧
      inputs.dedup.filter (fun p => !(pathExists st.fs p)) ≠ []) := by
    intro hc
    exact hc.2 hmiss
  refine ⟨?_, ?_, ?_⟩ <;>
  · unfold run
    rw [if_neg hneg, if_pos ⟨h1, h2, rfl⟩]

/-- Closed instance of C9: `remove_previous = true`, output present, the
file survives. -/
theorem run_skip_beats_remove_previous_witness :
    (["out"] : List String) ≠ [] ∧
    (["out"].all (fun p =>
      pathExists (⟨[("out", false)], []⟩ : RunnerState).fs p) = true) ∧
    (∀ p ∈ ([] : List String),
      pathExists (⟨[("out", false)], []⟩ : RunnerState).fs p = true) ∧
    ((run (fun _ fs => Except.ok (0, fs)) (fun _ => 0) ⟨[("out", false)], []⟩
        ["touch out"] [] ["out"] none false true true true).state.fs
      = (⟨[("out", false)], []⟩ : RunnerState).fs ∧
    (run (fun _ fs => Except.ok (0, fs)) (fun _ => 0) ⟨[("out", false)], []⟩
        ["touch out"] [] ["out"] none false true true true).result
      = Except.ok () ∧
    (run (fun _ fs => Except.ok (0, fs)) (fun _ => 0) ⟨[("out", false)], []⟩
        ["touch out"] [] ["out"] none false true true true).spawned = []) :=
  ⟨by simp, by simp [pathExists], by simp,
    run_skip_beats_remove_previous (fun _ fs => Except.ok (0, fs))
      (fun _ => 0) ⟨[("out", false)], []⟩ ["touch out"] [] ["out"] none
      false true (by simp) (by simp [pathExists]) (by simp)⟩

/-- C4: when at least one declared output is missing, output validation
raises an output-not-found error naming exactly the missing paths; with
`remove_if_failed` every existing declared path is deleted first,
nothing besides declared paths (or contents of declared directories) is
deleted, and when no declared path existed nothing at all is deleted. -/
theorem validate_outputs_missing (fs : FS) (files : List String)
    (func : Option (String → Bool)) (rif : Bool)
    (h : ∃ p ∈ files, pathExists fs p = false) :
    (validate_outputs fs files func rif).1
      = Except.error (RunError.outputNotFound
          (files.dedup.filter (fun p => !(pathExists fs p)))) ∧
    (∀ q, q ∈ files.dedup.filter (fun p => !(pathExists fs p)) ↔
      (q ∈ files ∧ pathExists fs q = false)) ∧
    (rif = true → ∀ p ∈ files, pathExists fs p = true →
      pathExists (validate_outputs fs files func rif).2 p = false) ∧
    ((∀ p ∈ files, pathExists fs p = false) →
      (validate_outputs fs files func rif).2 = fs) ∧
    (∀ q, pathExists (validate_outputs fs files func rif).2 q = true →
      pathExists fs q = true) ∧
    (∀ q, pathExists fs q = true →
      pathExists (validate_outputs fs files func rif).2 q = false →
      ∃ p ∈ files, pathExists fs p = true ∧
        (q = p ∨ underDir p q = true)) := by
  have hNF := inputMissing_ne_nil h
  have hfst : (validate_outputs fs files func rif).1
      = Except.error (RunError.outputNotFound
          (files.dedup.filter (fun p => !(pathExists fs p)))) := by
    unfold validate_outputs
    rw [if_pos hNF]
  have hsnd : (validate_outputs fs files func rif).2
      = if rif = true ∧ files.dedup.filter (fun p => pathExists fs p) ≠ [] then
          remove_files_or_dirs fs (files.dedup.filter (fun p => pathExists fs p))
        else fs := by
    unfold validate_outputs
    rw [if_pos hNF]
  refine ⟨hfst, ?_, ?_, ?_, ?_, ?_⟩
  · intro q
    constructor
    · intro hq
      have h := List.mem_filter.mp hq
      exact ⟨List.mem_dedup.mp h.1, by simpa using h.2⟩
    · intro ⟨hq, hqe⟩
      exact List.mem_filter.mpr ⟨List.mem_dedup.mpr hq, by simp [hqe]⟩
  · intro hrif p hp hpe
    have hmem : p ∈ files.dedup.filter (fun p => pathExists fs p) :=
      List.mem_filter.mpr ⟨List.mem_dedup.mpr hp, hpe⟩
    rw [hsnd, if_pos ⟨hrif, List.ne_nil_of_mem hmem⟩]
    exact pathExists_remove_mem hmem
  · intro hnone
    have hempty : files.dedup.filter (fun p => pathExists fs p) = [] := by
      rw [List.filter_eq_nil_iff]
      intro p hp
      simp [hnone p (List.mem_dedup.mp hp)]
    rw [hsnd]
    rw [if_neg (fun hc => hc.2 hempty)]
  · intro q hq
    rw [hsnd] at hq
    split at hq
    · exact pathExists_remove_mono hq
    · exact hq
  · intro q hq hq'
    rw [hsnd] at hq'
    split at hq'
    · rcases remove_frame hq hq' with ⟨p, hpmem, hrel⟩
      have h := List.mem_filter.mp hpmem
      exact ⟨p, List.mem_dedup.mp h.1, h.2, hrel⟩
    · simp [hq] at hq'

/-- Closed instance of C4: declared outputs `a` (present) and `b`
(absent), `remove_if_failed = true`. -/
theorem validate_outputs_missing_witness :
    (∃ p ∈ ["a", "b"], pathExists [("a", false)] p = false) ∧
    ((validate_outputs [("a", false)] ["a", "b"] none true).1
      = Except.error (RunError.outputNotFound
          (["a", "b"].dedup.filter (fun p => !(pathExists [("a", false)] p)))) ∧
    (∀ q, q ∈ ["a", "b"].dedup.filter
        (fun p => !(pathExists [("a", false)] p)) ↔
      (q ∈ ["a", "b"] ∧ pathExists [("a", false)] q = false)) ∧
    (true = true → ∀ p ∈ ["a", "b"], pathExists [("a", false)] p = true →
      pathExists (validate_outputs [("a", false)] ["a", "b"] none true).2 p
        = false) ∧
    ((∀ p ∈ ["a", "b"], pathExists [("a", false)] p = false) →
      (validate_outputs [("a", false)] ["a", "b"] none true).2
        = [("a", false)]) ∧
    (∀ q, pathExists (validate_outputs [("a", false)] ["a", "b"] none true).2 q
        = true → pathExists [("a", false)] q = true) ∧
    (∀ q, pathExists [("a", false)] q = true →
      pathExists (validate_outputs [("a", false)] ["a", "b"] none true).2 q
        = false →
      ∃ p ∈ ["a", "b"], pathExists [("a", false)] p = true ∧
        (q = p ∨ underDir p q = true))) :=
  ⟨⟨"b", by simp, by simp [pathExists]⟩,
    validate_outputs_missing [("a", false)] ["a", "b"] none true
      ⟨"b", by simp, by simp [pathExists]⟩⟩

/-- C5: when every declared output exists and the supplied validator
rejects at least one of them, output validation raises an
output-validation error naming exactly the rejected paths, and with
`remove_if_failed` every existing declared path — the passing ones
included — is deleted; without it the filesystem is untouched. -/
theorem validate_outputs_validator_rejects (fs : FS) (files : List String)
    (f : String → Bool) (rif : Bool)
    (hAll : ∀ p ∈ files, pathExists fs p = true)
    (hRej : ∃ p ∈ files, f p = false) :
    (validate_outputs fs files (some f) rif).1
      = Except.error (RunError.outputNotValidated
          (files.dedup.filter (fun p => !(f p)))) ∧
    (∀ q, q ∈ files.dedup.filter (fun p => !(f p)) ↔
      (q ∈ files ∧ f q = false)) ∧
    (rif = true → ∀ p ∈ files,
      pathExists (validate_outputs fs files (some f) rif).2 p = false) ∧
    (rif = false → (validate_outputs fs files (some f) rif).2 = fs) := by
  have hNF : files.dedup.filter (fun p => !(pathExists fs p)) = [] :=
    inputMissing_eq_nil hAll
  have hFound : files.dedup.filter (fun p => pathExists fs p) = files.dedup := by
    rw [List.filter_eq_self]
    intro p hp
    exact hAll p (List.mem_dedup.mp hp)
  have hNV : files.dedup.filter (fun p => !(f p)) ≠ [] := by
    obtain ⟨p, hp, hpf⟩ := hRej
    exact List.ne_nil_of_mem
      (List.mem_filter.mpr ⟨List.mem_dedup.mpr hp, by simp [hpf]⟩)
  have heq : validate_outputs fs files (some f) rif
      = (Except.error (RunError.outputNotValidated
          (files.dedup.filter (fun p => !(f p)))),
         if rif = true then remove_files_or_dirs fs files.dedup else fs) := by
    unfold validate_outputs
    rw [if_neg (fun hc => hc hNF)]
    simp only [hFound]
    rw [if_pos hNV]
  refine ⟨by rw [heq], ?_, ?_, ?_⟩
  · intro q
    constructor
    · intro hq
      have h := List.mem_filter.mp hq
      exact ⟨List.mem_dedup.mp h.1, by simpa using h.2⟩
    · intro ⟨hq, hqf⟩
      exact List.mem_filter.mpr ⟨List.mem_dedup.mpr hq, by simp [hqf]⟩
  · intro hrif p hp
    rw [heq]
    simp only [hrif, if_pos]
    exact pathExists_remove_mem (List.mem_dedup.mpr hp)
  · intro hrif
    rw [heq]
    simp [hrif]

/-- Closed instance of C5: outputs `a` and `b` both exist, the validator
rejects exactly `b`, `remove_if_failed = true`. -/
theorem validate_outputs_validator_rejects_witness :
    (∀ p ∈ ["a", "b"],
      pathExists [("a", false), ("b", false)] p = true) ∧
    (∃ p ∈ ["a", "b"], (fun q => q == "a") p = false) ∧
    ((validate_outputs [("a", false), ("b", false)] ["a", "b"]
        (some (fun q => q == "a")) true).1
      = Except.error (RunError.outputNotValidated
          (["a", "b"].dedup.filter (fun p => !((fun q => q == "a") p)))) ∧
    (∀ q, q ∈ ["a", "b"].dedup.filter (fun p => !((fun q => q == "a") p)) ↔
      (q ∈ ["a", "b"] ∧ (fun q => q == "a") q = false)) ∧
    (true = true → ∀ p ∈ ["a", "b"],
      pathExists (validate_outputs [("a", false), ("b", false)] ["a", "b"]
        (some (fun q => q == "a")) true).2 p = false) ∧
    (true = false → (validate_outputs [("a", false), ("b", false)] ["a", "b"]
        (some (fun q => q == "a")) true).2 = [("a", false), ("b", false)])) :=
  ⟨by simp [pathExists], ⟨"b", by simp, by simp⟩,
    validate_outputs_validator_rejects [("a", false), ("b", false)]
      ["a", "b"] (fun q => q == "a") true
      (by simp [pathExists]) ⟨"b", by simp, by simp⟩⟩

lemma procs_failed_ne_nil {procs : List Proc}
    (h : ∃ p ∈ procs, p.returncode ≠ 0) :
    procs.filter (fun p => p.returncode != 0) ≠ [] := by
  obtain ⟨p, hp, hrc⟩ := h
  exact List.ne_nil_of_mem (List.mem_filter.mpr ⟨hp, by simpa using hrc⟩)

/-- C2: a synchronous run in which every command executes and at least
one exits non-zero, with outputs declared and `remove_if_failed`,
deletes every declared output (none exists afterwards) and raises the
aggregate exit-status error listing every failed handle — not only the
first — leaving the pending list untouched. -/
theorem run_sync_nonzero_exit (ex : String → FS → Except SpawnErr (Int × FS))
    (popen : String → Int) (st : RunnerState)
    (args inputs outputs : List String) (v : Option (String → Bool))
    (rp sie : Bool) (procs : List Proc) (fs1 : FS)
    (hIn : ∀ p ∈ inputs, pathExists st.fs p = true)
    (hNoSkip : ¬(outputs ≠ [] ∧
      outputs.all (fun p => pathExists st.fs p) = true ∧ sie = true))
    (hRun : runCmds ex
        (if rp = true then remove_files_or_dirs st.fs outputs else st.fs)
        args = Except.ok (procs, fs1))
    (hFail : ∃ p ∈ procs, p.returncode ≠ 0)
    (hOut : outputs ≠ []) :
    (run ex popen st args inputs outputs v false true rp sie).result
      = Except.error (RunError.subprocessFailed
          (procs.filter (fun p => p.returncode != 0))) ∧
    (∀ q, q ∈ procs.filter (fun p => p.returncode != 0) ↔
      (q ∈ procs ∧ q.returncode ≠ 0)) ∧
    (∀ p ∈ outputs,
      pathExists (run ex popen st args inputs outputs v false true rp sie).state.fs
        p = false) ∧
    (run ex popen st args inputs outputs v false true rp sie).state.openProcList
      = st.openProcList := by
  have hneg1 : ¬(inputs ≠ [] ∧
      inputs.dedup.filter (fun p => !(pathExists st.fs p)) ≠ []) :=
    fun hc => hc.2 (inputMissing_eq_nil hIn)
  have hPF := procs_failed_ne_nil hFail
  have hrun : run ex popen st args inputs outputs v false true rp sie
      = { result := (validate_results fs1 procs outputs v true).1,
          state := { fs := (validate_results fs1 procs outputs v true).2,
                     openProcList := st.openProcList },
          spawned := args } := by
    unfold run
    rw [if_neg hneg1, if_neg hNoSkip, if_neg Bool.false_ne_true, hRun]
  have hvr1 : (validate_results fs1 procs outputs v true).1
      = Except.error (RunError.subprocessFailed
          (procs.filter (fun p => p.returncode != 0))) := by
    unfold validate_results
    rw [if_pos hPF]
  have hvr2 : (validate_results fs1 procs outputs v true).2
      = remove_files_or_dirs fs1 outputs := by
    unfold validate_results
    rw [if_pos hPF, if_pos ⟨hOut, rfl⟩]
  refine ⟨by rw [hrun, hvr1], ?_, ?_, by rw [hrun]⟩
  · intro q
    constructor
    · intro hq
      have h := List.mem_filter.mp hq
      exact ⟨h.1, by simpa using h.2⟩
    · intro ⟨hq, hrc⟩
      exact List.mem_filter.mpr ⟨hq, by simpa using hrc⟩
  · intro p hp
    rw [hrun]
    show pathExists (validate_results fs1 procs outputs v true).2 p = false
    rw [hvr2]
    exact pathExists_remove_mem hp

/-- Closed instance of C2: one command exiting 1 and one exiting 0, one
declared output that pre-exists. -/
theorem run_sync_nonzero_exit_witness :
    (∀ p ∈ ([] : List String),
      pathExists (⟨[("out", false)], []⟩ : RunnerState).fs p = true) ∧
    ¬((["out"] : List String) ≠ [] ∧
      ["out"].all (fun p =>
        pathExists (⟨[("out", false)], []⟩ : RunnerState).fs p) = true ∧
      false = true) ∧
    (runCmds (fun a fs => Except.ok (if a = "bad" then 1 else 0, fs))
        (if false = true then
          remove_files_or_dirs (⟨[("out", false)], []⟩ : RunnerState).fs ["out"]
        else (⟨[("out", false)], []⟩ : RunnerState).fs)
        ["bad", "ok"]
      = Except.ok ([⟨"bad", 1⟩, ⟨"ok", 0⟩], [("out", false)])) ∧
    (∃ p ∈ [(⟨"bad", 1⟩ : Proc), ⟨"ok", 0⟩], p.returncode ≠ 0) ∧
    ((run (fun a fs => Except.ok (if a = "bad" then 1 else 0, fs)) (fun _ => 0)
        ⟨[("out", false)], []⟩ ["bad", "ok"] [] ["out"] none false true false
        false).result
      = Except.error (RunError.subprocessFailed
          ([⟨"bad", 1⟩, ⟨"ok", 0⟩].filter (fun p => p.returncode != 0))) ∧
    (∀ q, q ∈ [(⟨"bad", 1⟩ : Proc), ⟨"ok", 0⟩].filter
        (fun p => p.returncode != 0) ↔
      (q ∈ [(⟨"bad", 1⟩ : Proc), ⟨"ok", 0⟩] ∧ q.returncode ≠ 0)) ∧
    (∀ p ∈ ["out"],
      pathExists (run (fun a fs => Except.ok (if a = "bad" then 1 else 0, fs))
        (fun _ => 0) ⟨[("out", false)], []⟩ ["bad", "ok"] [] ["out"] none
        false true false false).state.fs p = false) ∧
    (run (fun a fs => Except.ok (if a = "bad" then 1 else 0, fs)) (fun _ => 0)
        ⟨[("out", false)], []⟩ ["bad", "ok"] [] ["out"] none false true false
        false).state.openProcList
      = (⟨[("out", false)], []⟩ : RunnerState).openProcList) :=
  ⟨by simp, by simp, rfl, ⟨⟨"bad", 1⟩, by simp, by simp⟩,
    run_sync_nonzero_exit (fun a fs => Except.ok (if a = "bad" then 1 else 0, fs))
      (fun _ => 0) ⟨[("out", false)], []⟩ ["bad", "ok"] [] ["out"] none
      false false [⟨"bad", 1⟩, ⟨"ok", 0⟩] [("out", false)]
      (by simp) (by simp) rfl ⟨⟨"bad", 1⟩, by simp, by simp⟩ (by simp)⟩

/-- C7 counterexample: a spawn that raises an exception other than
`subprocess.SubprocessError` (here an `OSError`), with a pre-existing
declared output and `remove_if_failed = true`: the `except` clause at
`shelloperator.py:220` does not catch it, so the declared output is NOT
deleted — refuting the claim for "any error raised during spawn". -/
theorem run_spawn_os_error_keeps_output_cex :
    (run (fun _ _ => Except.error (SpawnErr.osError "boom")) (fun _ => 0)
        ⟨[("out", false)], []⟩ ["cmd"] [] ["out"] none false true false
        false).result
      = Except.error (RunError.spawnRaised (SpawnErr.osError "boom")) ∧
    pathExists (run (fun _ _ => Except.error (SpawnErr.osError "boom"))
        (fun _ => 0) ⟨[("out", false)], []⟩ ["cmd"] [] ["out"] none false
        true false false).state.fs "out" = true :=
  ⟨rfl, rfl⟩

/-- C7 (amended): when the synchronous loop raises a subprocess
execution error — the `subprocess.SubprocessError` class the `except`
clause catches — with outputs declared and `remove_if_failed`, every
currently-present declared output is deleted and the very same error is
re-raised unchanged; the pending list is untouched.  (Exceptions of any
other class propagate without this cleanup, as the counterexample
shows.) -/
theorem run_sync_spawn_error_cleanup
    (ex : String → FS → Except SpawnErr (Int × FS)) (popen : String → Int)
    (st : RunnerState) (args inputs outputs : List String)
    (v : Option (String → Bool)) (rp sie : Bool) (m : String) (fsE : FS)
    (sp : List String)
    (hIn : ∀ p ∈ inputs, pathExists st.fs p = true)
    (hNoSkip : ¬(outputs ≠ [] ∧
      outputs.all (fun p => pathExists st.fs p) = true ∧ sie = true))
    (hRun : runCmds ex
        (if rp = true then remove_files_or_dirs st.fs outputs else st.fs)
        args = Except.error (SpawnErr.subprocessError m, fsE, sp))
    (hOut : outputs ≠ []) :
    (run ex popen st args inputs outputs v false true rp sie).result
      = Except.error (RunError.spawnRaised (SpawnErr.subprocessError m)) ∧
    (∀ p ∈ outputs,
      pathExists (run ex popen st args inputs outputs v false true rp
        sie).state.fs p = false) ∧
    (run ex popen st args inputs outputs v false true rp sie).state.openProcList
      = st.openProcList := by
  have hneg1 : ¬(inputs ≠ [] ∧
      inputs.dedup.filter (fun p => !(pathExists st.fs p)) ≠ []) :=
    fun hc => hc.2 (inputMissing_eq_nil hIn)
  have hrun : run ex popen st args inputs outputs v false true rp sie
      = { result := Except.error (RunError.spawnRaised
            (SpawnErr.subprocessError m)),
          state := { fs := remove_files_or_dirs fsE outputs,
                     openProcList := st.openProcList },
          spawned := sp } := by
    unfold run
    rw [if_neg hneg1, if_neg hNoSkip, if_neg Bool.false_ne_true, hRun]
    simp [catchesSubprocessError, hOut]
  refine ⟨by rw [hrun], ?_, by rw [hrun]⟩
  intro p hp
  rw [hrun]
  exact pathExists_remove_mem hp

/-- Closed instance of the amended C7: the first command raises a
subprocess error; the pre-existing declared output disappears and the
same error comes back. -/
theorem run_sync_spawn_error_cleanup_witness :
    (∀ p ∈ ([] : List String),
      pathExists (⟨[("out", false)], []⟩ : RunnerState).fs p = true) ∧
    ¬((["out"] : List String) ≠ [] ∧
      ["out"].all (fun p =>
        pathExists (⟨[("out", false)], []⟩ : RunnerState).fs p) = true ∧
      false = true) ∧
    (runCmds (fun _ _ => Except.error (SpawnErr.subprocessError "timeout"))
        (if false = true then
          remove_files_or_dirs (⟨[("out", false)], []⟩ : RunnerState).fs ["out"]
        else (⟨[("out", false)], []⟩ : RunnerState).fs)
        ["cmd"]
      = Except.error (SpawnErr.subprocessError "timeout",
          [("out", false)], ["cmd"])) ∧
    ((run (fun _ _ => Except.error (SpawnErr.subprocessError "timeout"))
        (fun _ => 0) ⟨[("out", false)], []⟩ ["cmd"] [] ["out"] none false
        true false false).result
      = Except.error (RunError.spawnRaised
          (SpawnErr.subprocessError "timeout")) ∧
    (∀ p ∈ ["out"],
      pathExists (run (fun _ _ => Except.error
          (SpawnErr.subprocessError "timeout")) (fun _ => 0)
        ⟨[("out", false)], []⟩ ["cmd"] [] ["out"] none false true false
        false).state.fs p = false) ∧
    (run (fun _ _ => Except.error (SpawnErr.subprocessError "timeout"))
        (fun _ => 0) ⟨[("out", false)], []⟩ ["cmd"] [] ["out"] none false
        true false false).state.openProcList
      = (⟨[("out", false)], []⟩ : RunnerState).openProcList) :=
  ⟨by simp, by simp, rfl,
    run_sync_spawn_error_cleanup
      (fun _ _ => Except.error (SpawnErr.subprocessError "timeout"))
      (fun _ => 0) ⟨[("out", false)], []⟩ ["cmd"] [] ["out"] none false
      false "timeout" [("out", false)] ["cmd"]
      (by simp) (by simp) rfl (by simp)⟩

/-- C6 counterexample: an asynchronous `run` whose declared input is
missing appends NO batch (the input check at `shelloperator.py:189`
fires before the asynchronous branch), refuting "every run() call with
asynchronous=true appends exactly one batch record". -/
theorem run_async_missing_input_appends_nothing_cex :
    (run (fun _ fs => Except.ok (0, fs)) (fun _ => 0) ⟨[], []⟩ ["cmd"]
        ["in"] [] none true true false true).state.openProcList = [] ∧
    (run (fun _ fs => Except.ok (0, fs)) (fun _ => 0) ⟨[], []⟩ ["cmd"]
        ["in"] [] none true true false true).result
      = Except.error (RunError.inputNotFound ["in"]) :=
  ⟨rfl, rfl⟩

/-- C6 (amended): the pending-batch list is mutated only by `run` and
`wait`: an asynchronous `run` that passes the input check and is not
skipped appends exactly one batch — one handle per command, in command
order — and returns without validating; a synchronous `run` always
leaves the list unchanged; and whenever `wait` completes without
raising, the list is empty. -/
theorem open_proc_list_lifecycle :
    (∀ ex popen st args inputs outputs v rif rp sie,
      (∀ p ∈ inputs, pathExists st.fs p = true) →
      ¬(outputs ≠ [] ∧
        outputs.all (fun p => pathExists st.fs p) = true ∧ sie = true) →
      (run ex popen st args inputs outputs v true rif rp sie).state.openProcList
        = st.openProcList ++
          [{ procs := args.map (fun a => ⟨a, popen a⟩),
             output_files_or_dirs := outputs,
             output_validator := v,
             remove_if_failed := rif }] ∧
      (run ex popen st args inputs outputs v true rif rp sie).result
        = Except.ok ()) ∧
    (∀ ex popen st args inputs outputs v rif rp sie,
      (run ex popen st args inputs outputs v false rif rp sie).state.openProcList
        = st.openProcList) ∧
    (∀ st st', wait st = (Except.ok (), st') → st'.openProcList = []) := by
  refine ⟨?_, ?_, ?_⟩
  · intro ex popen st args inputs outputs v rif rp sie hIn hNoSkip
    have hneg1 : ¬(inputs ≠ [] ∧
        inputs.dedup.filter (fun p => !(pathExists st.fs p)) ≠ []) :=
      fun hc => hc.2 (inputMissing_eq_nil hIn)
    constructor <;>
    · unfold run
      rw [if_neg hneg1, if_neg hNoSkip, if_pos rfl]
  · intro ex popen st args inputs outputs v rif rp sie
    by_cases h1 : (inputs ≠ [] ∧
        inputs.dedup.filter (fun p => !(pathExists st.fs p)) ≠ [])
    · unfold run
      rw [if_pos h1]
    · by_cases h2 : (outputs ≠ [] ∧
          outputs.all (fun p => pathExists st.fs p) = true ∧ sie = true)
      · unfold run
        rw [if_neg h1, if_pos h2]
      · unfold run
        rw [if_neg h1, if_neg h2, if_neg Bool.false_ne_true]
        rcases hr : runCmds ex
            (if rp = true then remove_files_or_dirs st.fs outputs else st.fs)
            args with e | o
        · obtain ⟨e1, fsE, sp⟩ := e
          rfl
        · obtain ⟨procs, fs1⟩ := o
          rfl
  · intro st st' h
    unfold wait at h
    rcases hwb : waitBatches st.fs st.openProcList with ⟨r, fs1⟩
    rw [hwb] at h
    cases r with
    | error e => simp at h
    | ok u =>
      have h2 := congrArg Prod.snd h
      simp only at h2
      rw [← h2]

/-- Closed instance of the amended C6: an asynchronous run of two
commands appends one batch with both handles in order; a synchronous
run leaves the list unchanged; a completed `wait` leaves it empty. -/
theorem open_proc_list_lifecycle_witness :
    ((run (fun _ fs => Except.ok (0, fs)) (fun _ => 7) ⟨[], []⟩ ["a", "b"]
        [] [] none true true false true).state.openProcList
      = [] ++ [{ procs := [⟨"a", 7⟩, ⟨"b", 7⟩],
                 output_files_or_dirs := [],
                 output_validator := none,
                 remove_if_failed := true }] ∧
    (run (fun _ fs => Except.ok (0, fs)) (fun _ => 7) ⟨[], []⟩ ["a", "b"]
        [] [] none true true false true).result = Except.ok ()) ∧
    (run (fun _ fs => Except.ok (0, fs)) (fun _ => 7) ⟨[], []⟩ ["a", "b"]
        [] [] none false true false true).state.openProcList = [] ∧
    (wait ⟨[], []⟩ = (Except.ok (), (⟨[], []⟩ : RunnerState)) →
      (⟨[], []⟩ : RunnerState).openProcList = []) := by
  refine ⟨?_, ?_, ?_⟩
  · exact open_proc_list_lifecycle.1 (fun _ fs => Except.ok (0, fs))
      (fun _ => 7) ⟨[], []⟩ ["a", "b"] [] [] none true false true
      (by simp) (by simp)
  · exact open_proc_list_lifecycle.2.1 (fun _ fs => Except.ok (0, fs))
      (fun _ => 7) ⟨[], []⟩ ["a", "b"] [] [] none true false true
  · exact open_proc_list_lifecycle.2.2 ⟨[], []⟩ ⟨[], []⟩

/-- Order `fsLe fs' fs`: every path existing in `fs'` exists in `fs`.  All the
filesystem effects inside `wait` only delete, so states evolve downwards
along this order. -/
def fsLe (fs' fs : FS) : Prop :=
  ∀ p, pathExists fs' p = true → pathExists fs p = true

lemma fsLe_refl (fs : FS) : fsLe fs fs := fun _ h => h

lemma fsLe_remove (fs : FS) (ps : List String) :
    fsLe (remove_files_or_dirs fs ps) fs :=
  fun _ h => pathExists_remove_mono h

lemma validate_outputs_snd_le (fs : FS) (files : List String)
    (v : Option (String → Bool)) (r : Bool) :
    fsLe (validate_outputs fs files v r).2 fs := by
  cases v with
  | none =>
    simp only [validate_outputs]
    split
    · split
      · exact fsLe_remove _ _
      · exact fsLe_refl _
    · exact fsLe_refl _
  | some f =>
    simp only [validate_outputs]
    split
    · split
      · exact fsLe_remove _ _
      · exact fsLe_refl _
    · split
      · split
        · exact fsLe_remove _ _
        · exact fsLe_refl _
      · exact fsLe_refl _

lemma validate_outputs_ok_snd {fs : FS} {files : List String}
    {v : Option (String → Bool)} {r : Bool} {u : Unit}
    (h : (validate_outputs fs files v r).1 = Except.ok u) :
    (validate_outputs fs files v r).2 = fs := by
  cases v with
  | none =>
    by_cases hc1 : files.dedup.filter (fun p => !(pathExists fs p)) ≠ []
    · exfalso
      simp only [validate_outputs] at h
      rw [if_pos hc1] at h
      simp at h
    · simp only [validate_outputs]
      rw [if_neg hc1]
  | some f =>
    by_cases hc1 : files.dedup.filter (fun p => !(pathExists fs p)) ≠ []
    · exfalso
      simp only [validate_outputs] at h
      rw [if_pos hc1] at h
      simp at h
    · by_cases hc2 : ((files.dedup.filter (fun p => pathExists fs p)).filter
          (fun p => !(f p))) ≠ []
      · exfalso
        simp only [validate_outputs] at h
        rw [if_neg hc1, if_pos hc2] at h
        simp at h
      · simp only [validate_outputs]
        rw [if_neg hc1, if_neg hc2]

lemma validate_results_snd_le (fs : FS) (procs : List Proc)
    (o : List String) (v : Option (String → Bool)) (r : Bool) :
    fsLe (validate_results fs procs o v r).2 fs := by
  simp only [validate_results]
  split
  · split
    · exact fsLe_remove _ _
    · exact fsLe_refl _
  · split
    · exact validate_outputs_snd_le _ _ _ _
    · exact fsLe_refl _

lemma validate_results_ok_snd {fs : FS} {procs : List Proc}
    {o : List String} {v : Option (String → Bool)} {r : Bool} {u : Unit}
    (h : (validate_results fs procs o v r).1 = Except.ok u) :
    (validate_results fs procs o v r).2 = fs := by
  by_cases hPF : procs.filter (fun p => p.returncode != 0) ≠ []
  · exfalso
    simp only [validate_results] at h
    rw [if_pos hPF] at h
    simp at h
  · by_cases hO : o ≠ []
    · have hvo : (validate_outputs fs o v r).1 = Except.ok u := by
        simp only [validate_results] at h
        rw [if_neg hPF, if_pos hO] at h
        exact h
      simp only [validate_results]
      rw [if_neg hPF, if_pos hO]
      exact validate_outputs_ok_snd hvo
    · simp only [validate_results]
      rw [if_neg hPF, if_neg hO]

/-- A failing output validation keeps failing on any smaller filesystem:
deletion can make more declared outputs missing but never resurrects
them, and a validator rejection either persists or turns into a missing
output. -/
lemma validate_outputs_error_antitone {fs fs' : FS} {files : List String}
    {v : Option (String → Bool)} {r : Bool} {e : RunError}
    (h : (validate_outputs fs files v r).1 = Except.error e)
    (hle : fsLe fs' fs) :
    ∃ e2, (validate_outputs fs' files v r).1 = Except.error e2 := by
  by_cases hNF' : files.dedup.filter (fun p => !(pathExists fs' p)) ≠ []
  · refine ⟨RunError.outputNotFound
      (files.dedup.filter (fun p => !(pathExists fs' p))), ?_⟩
    cases v with
    | none =>
      simp only [validate_outputs]
      rw [if_pos hNF']
    | some f =>
      simp only [validate_outputs]
      rw [if_pos hNF']
  · have heqNF' : files.dedup.filter (fun p => !(pathExists fs' p)) = [] :=
      not_not.mp hNF'
    have hall' : ∀ p ∈ files.dedup, pathExists fs' p = true := by
      intro p hp
      have := List.filter_eq_nil_iff.mp heqNF' p hp
      simpa using this
    have hallfs : ∀ p ∈ files.dedup, pathExists fs p = true :=
      fun p hp => hle p (hall' p hp)
    have hNF : files.dedup.filter (fun p => !(pathExists fs p)) = [] := by
      rw [List.filter_eq_nil_iff]
      intro p hp
      simp [hallfs p hp]
    cases v with
    | none =>
      exfalso
      simp only [validate_outputs] at h
      rw [if_neg (fun hc => hc hNF)] at h
      simp at h
    | some f =>
      have hNV : ((files.dedup.filter (fun p => pathExists fs p)).filter
          (fun p => !(f p))) ≠ [] := by
        by_contra hc
        simp only [validate_outputs] at h
        rw [if_neg (fun hx => hx hNF), if_neg (fun hx => hx hc)] at h
        simp at h
      obtain ⟨q, hq⟩ := List.exists_mem_of_ne_nil _ hNV
      have hq1 := List.mem_filter.mp hq
      have hq2 := List.mem_filter.mp hq1.1
      have hFound' : files.dedup.filter (fun p => pathExists fs' p)
          = files.dedup := by
        rw [List.filter_eq_self]
        exact hall'
      have hNV' : ((files.dedup.filter (fun p => pathExists fs' p)).filter
          (fun p => !(f p))) ≠ [] := by
        rw [hFound']
        exact List.ne_nil_of_mem (List.mem_filter.mpr ⟨hq2.1, hq1.2⟩)
      refine ⟨RunError.outputNotValidated
        ((files.dedup.filter (fun p => pathExists fs' p)).filter
          (fun p => !(f p))), ?_⟩
      simp only [validate_outputs]
      rw [if_neg (fun hx => hx heqNF'), if_pos hNV']

/-- A failing batch validation keeps failing on any smaller filesystem:
non-zero exit statuses are filesystem-independent, and output-validation
failures are antitone. -/
lemma validate_results_error_antitone {fs fs' : FS} {procs : List Proc}
    {o : List String} {v : Option (String → Bool)} {r : Bool} {e : RunError}
    (h : (validate_results fs procs o v r).1 = Except.error e)
    (hle : fsLe fs' fs) :
    ∃ e2, (validate_results fs' procs o v r).1 = Except.error e2 := by
  by_cases hPF : procs.filter (fun p => p.returncode != 0) ≠ []
  · refine ⟨RunError.subprocessFailed
      (procs.filter (fun p => p.returncode != 0)), ?_⟩
    simp only [validate_results]
    rw [if_pos hPF]
  · by_cases hO : o ≠ []
    · have hvo : (validate_outputs fs o v r).1 = Except.error e := by
        simp only [validate_results] at h
        rw [if_neg hPF, if_pos hO] at h
        exact h
      obtain ⟨e2, he2⟩ := validate_outputs_error_antitone hvo hle
      refine ⟨e2, ?_⟩
      simp only [validate_results]
      rw [if_neg hPF, if_pos hO]
      exact he2
    · exfalso
      simp only [validate_results] at h
      rw [if_neg hPF, if_neg hO] at h
      simp at h

lemma waitBatches_snd_le (fs : FS) (bs : List Batch) :
    fsLe (waitBatches fs bs).2 fs := by
  induction bs generalizing fs with
  | nil =>
    simp only [waitBatches]
    exact fsLe_refl fs
  | cons b rest ih =>
    rcases hval : validate_results fs b.procs b.output_files_or_dirs
        b.output_validator b.remove_if_failed with ⟨r, fs1⟩
    simp only [waitBatches]
    rw [hval]
    cases r with
    | error e1 =>
      have hm := validate_results_snd_le fs b.procs b.output_files_or_dirs
        b.output_validator b.remove_if_failed
      rw [hval] at hm
      exact hm
    | ok u =>
      have h1 : (validate_results fs b.procs b.output_files_or_dirs
          b.output_validator b.remove_if_failed).1 = Except.ok u := by
        rw [hval]
      have h2 := validate_results_ok_snd h1
      have h3 : (validate_results fs b.procs b.output_files_or_dirs
          b.output_validator b.remove_if_failed).2 = fs1 := by
        rw [hval]
      rw [h3] at h2
      show fsLe (waitBatches fs1 rest).2 fs
      rw [h2]
      exact ih fs

lemma waitBatches_error_antitone {fs fs' : FS} {bs : List Batch}
    {e : RunError}
    (h : (waitBatches fs bs).1 = Except.error e)
    (hle : fsLe fs' fs) :
    ∃ e2, (waitBatches fs' bs).1 = Except.error e2 := by
  induction bs generalizing fs fs' e with
  | nil =>
    exfalso
    simp [waitBatches] at h
  | cons b rest ih =>
    rcases hval : validate_results fs b.procs b.output_files_or_dirs
        b.output_validator b.remove_if_failed with ⟨r, fs1⟩
    cases r with
    | error e1 =>
      have hv1 : (validate_results fs b.procs b.output_files_or_dirs
          b.output_validator b.remove_if_failed).1 = Except.error e1 := by
        rw [hval]
      obtain ⟨e2, he2⟩ := validate_results_error_antitone hv1 hle
      refine ⟨e2, ?_⟩
      rcases hval' : validate_results fs' b.procs b.output_files_or_dirs
          b.output_validator b.remove_if_failed with ⟨r', fs1'⟩
      have hr' : r' = Except.error e2 := by
        rw [hval'] at he2
        exact he2
      subst hr'
      simp only [waitBatches]
      rw [hval']
    | ok u =>
      have hv1 : (validate_results fs b.procs b.output_files_or_dirs
          b.output_validator b.remove_if_failed).1 = Except.ok u := by
        rw [hval]
      have hfs1 : fs1 = fs := by
        have h2 := validate_results_ok_snd hv1
        have h3 : (validate_results fs b.procs b.output_files_or_dirs
            b.output_validator b.remove_if_failed).2 = fs1 := by
          rw [hval]
        rw [h3] at h2
        exact h2
      have h' : (waitBatches fs rest).1 = Except.error e := by
        simp only [waitBatches] at h
        rw [hval] at h
        have hred : (waitBatches fs1 rest).1 = Except.error e := h
        rwa [hfs1] at hred
      rcases hval' : validate_results fs' b.procs b.output_files_or_dirs
          b.output_validator b.remove_if_failed with ⟨r', fs1'⟩
      cases r' with
      | error e1' =>
        refine ⟨e1', ?_⟩
        simp only [waitBatches]
        rw [hval']
      | ok u' =>
        have hv1' : (validate_results fs' b.procs b.output_files_or_dirs
            b.output_validator b.remove_if_failed).1 = Except.ok u' := by
          rw [hval']
        have hfs1' : fs1' = fs' := by
          have h2 := validate_results_ok_snd hv1'
          have h3 : (validate_results fs' b.procs b.output_files_or_dirs
              b.output_validator b.remove_if_failed).2 = fs1' := by
            rw [hval']
          rw [h3] at h2
          exact h2
        obtain ⟨e2, he2⟩ := ih h' hle
        refine ⟨e2, ?_⟩
        simp only [waitBatches]
        rw [hval']
        show (waitBatches fs1' rest).1 = Except.error e2
        rw [hfs1']
        exact he2

/-- C10: `wait` does not drain the pending list on error — the list is
exactly as it was before the call (the clearing at `shelloperator.py:267`
is skipped when a batch validation raises) — and a subsequent `wait` on
the resulting state raises again. -/
theorem wait_error_preserves_pending (st st' : RunnerState) (e : RunError)
    (h : wait st = (Except.error e, st')) :
    st'.openProcList = st.openProcList ∧
    ∃ e2 st2, wait st' = (Except.error e2, st2) := by
  rcases hwb : waitBatches st.fs st.openProcList with ⟨r, fs1⟩
  unfold wait at h
  rw [hwb] at h
  cases r with
  | ok u => simp at h
  | error e1 =>
    have h2 : (⟨fs1, st.openProcList⟩ : RunnerState) = st' :=
      congrArg Prod.snd h
    have hle : fsLe fs1 st.fs := by
      have hm := waitBatches_snd_le st.fs st.openProcList
      rw [hwb] at hm
      exact hm
    have herr : (waitBatches st.fs st.openProcList).1 = Except.error e1 := by
      rw [hwb]
    obtain ⟨e2, he2⟩ := waitBatches_error_antitone herr hle
    refine ⟨by rw [← h2], ?_⟩
    rw [← h2]
    rcases hwb2 : waitBatches fs1 st.openProcList with ⟨r2, fs2⟩
    rw [hwb2] at he2
    have hr2 : r2 = Except.error e2 := he2
    subst hr2
    refine ⟨e2, ⟨fs2, st.openProcList⟩, ?_⟩
    simp only [wait]
    rw [hwb2]

/-- Closed instance of C10: one pending batch whose single process
exited 1; `wait` raises, keeps the batch queued, and raises again. -/
theorem wait_error_preserves_pending_witness :
    wait ⟨[], [⟨[⟨"x", 1⟩], [], none, true⟩]⟩
      = (Except.error (RunError.subprocessFailed [⟨"x", 1⟩]),
         (⟨[], [⟨[⟨"x", 1⟩], [], none, true⟩]⟩ : RunnerState)) ∧
    ((⟨[], [⟨[⟨"x", 1⟩], [], none, true⟩]⟩ : RunnerState).openProcList
      = (⟨[], [⟨[⟨"x", 1⟩], [], none, true⟩]⟩ : RunnerState).openProcList ∧
    ∃ e2 st2, wait ⟨[], [⟨[⟨"x", 1⟩], [], none, true⟩]⟩
      = (Except.error e2, st2)) :=
  ⟨rfl, wait_error_preserves_pending _ _ _ rfl⟩

end ShellOperator
